import Mathlib

/-!
Verification of the rating computation pipeline of `ratings.ts`.

The pipeline reads a log of tick (climb-attempt) records, filters the
eligible ones, sorts them by timestamp, partitions them into same-date
batches, feeds each batch of `[player, route, score]` comparison triples to
the Glicko-2 engine (the external `npm:glicko2` library), and reports two
sorted output collections.

Modelling conventions:
* JS numbers used as identities are modelled as `Nat`; numeric scores and
  rating values as `ℚ`.
* A tick's `user` field (`User | false | undefined` at runtime) is modelled
  as `Option User`; `leadStyle` (possibly `undefined` at runtime, the code
  guards on it) as `Option String`.
* `new Date(s).getTime()` is an environment function (JS date parsing); it
  is modelled as an explicit parameter `time : String → Int`.
* `Array.prototype.sort` is stable (ECMAScript); a stable sort by a total
  preorder is unique as a function, so it is modelled by
  `List.insertionSort`, which is stable.
* JS `Map` iterates in insertion order; the `players` / `routeRatings`
  maps are modelled by their insertion-ordered key lists plus the engine
  valuation.
* The Glicko-2 engine itself is the external library (not code of this
  repository); its deterministic behaviour is modelled by an abstract
  parameter `Engine` mapping the full batch sequence to final per-identity
  rating states.
* Fields of `Tick` and `Route` that the pipeline never reads
  (`difficulty`, `comment`, `pitches`, ...) are omitted.
-/

namespace MpElo

/-- The `User` record carried by a tick: `{ id, name }`. -/
structure User where
  id : Nat
  name : String
deriving DecidableEq

/-- A tick record, restricted to the fields `ratings.ts` reads:
`routeId`, `id`, `date`, `style`, `leadStyle`, `user`. -/
structure Tick where
  routeId : Nat
  id : Nat
  date : String
  style : String
  leadStyle : Option String
  user : Option User
deriving DecidableEq

/-- A route record (metadata joined into the route output). -/
structure Route where
  id : Nat
  type : String
  title : String
  rating : ℚ
  summary : String
  difficulty : String
  pitches : Nat
  area : Nat
deriving DecidableEq

/-- `getScore` from `ratings.ts`: the switch converting a `leadStyle`
label to a comparison score, `null` (here `none`) for any other label. -/
def getScore (leadStyle : String) : Option ℚ :=
  if leadStyle = "Onsight" then some 1
  else if leadStyle = "Flash" then some (9/10)
  else if leadStyle = "Redpoint" then some (7/10)
  else if leadStyle = "Fell/Hung" then some 0
  else none

/-- The score of a tick: `getScore(tick.leadStyle)`.  An `undefined`
`leadStyle` also yields `null` (the switch default). -/
def scoreOfTick (t : Tick) : Option ℚ :=
  t.leadStyle.bind getScore

/-- A tick is scored when `getScore` does not return `null`. -/
def scoredB (t : Tick) : Bool :=
  (scoreOfTick t).isSome

/-- The date token `tick.date.split(",")[0]`: the part of the timestamp
string before the first comma (the whole string when it has no comma). -/
def dateToken (t : Tick) : String :=
  ⟨t.date.toList.takeWhile (fun c => c ≠ ',')⟩

/-- The eligibility test of the first `filter` in `ratings.ts`:
`tick.user !== undefined && tick.user !== false && tick.leadStyle !==
undefined && tick.style == "Lead"`. -/
def eligible (t : Tick) : Bool :=
  t.user.isSome && t.leadStyle.isSome && (t.style == "Lead")

/-- The id of a tick's user (`tick.user.id`); lemma-side helper, only
meaningful on ticks whose `user` is present. -/
def tickUid (t : Tick) : Nat :=
  match t.user with
  | some u => u.id
  | none => 0

/-- The display name carried by a tick (`tick.user.name`). -/
def tickName (t : Tick) : Option String :=
  t.user.map (fun u => u.name)

/-- State built as a side effect of the first `filter`: the `names`
record, the `userTicks` map, and the accumulated kept ticks. -/
structure Pass1State where
  names : Nat → Option String
  userTicks : Nat → List Tick
  kept : List Tick

/-- One step of the first `filter` over a tick: when the tick is
eligible, record `names[user.id] = user.name`, append the tick to
`userTicks.get(user.id)`, and keep the tick. -/
def pass1Step (s : Pass1State) (t : Tick) : Pass1State :=
  match t.user with
  | some u =>
    if t.leadStyle.isSome && (t.style == "Lead") then
      { names := fun i => if i = u.id then some u.name else s.names i
        userTicks := fun i => if i = u.id then s.userTicks i ++ [t] else s.userTicks i
        kept := s.kept ++ [t] }
    else s
  | none => s

/-- The empty `names` / `userTicks` state. -/
def pass1Init : Pass1State :=
  { names := fun _ => none, userTicks := fun _ => [], kept := [] }

/-- The first `filter` of `ratings.ts`, run over the whole tick log
(JS `Array.prototype.filter` completes before the next chained call). -/
def pass1 (ticks : List Tick) : Pass1State :=
  ticks.foldl pass1Step pass1Init

/-- `ts.some(t => t.leadStyle === "Fell/Hung")`. -/
def hasFellHung (ts : List Tick) : Bool :=
  ts.any (fun t => t.leadStyle == some "Fell/Hung")

/-- The second `filter` of `ratings.ts` (population filter): keep a tick
iff `userTicks.get(tick.user.id)?.some(t => t.leadStyle === "Fell/Hung")`.
The `userTicks` index is the completed index built by the first pass. -/
def retainedTicks (ticks : List Tick) : List Tick :=
  let s := pass1 ticks
  s.kept.filter fun t =>
    match t.user with
    | some u => hasFellHung (s.userTicks u.id)
    | none => false

/-- The sort comparator `(a, b) => new Date(a.date).getTime() - new
Date(b.date).getTime()`, as the total preorder it sorts by. -/
def tickLe (time : String → Int) (a b : Tick) : Prop :=
  time a.date ≤ time b.date

instance (time : String → Int) : DecidableRel (tickLe time) :=
  fun a b => inferInstanceAs (Decidable (time a.date ≤ time b.date))

instance (time : String → Int) : IsTotal Tick (tickLe time) :=
  ⟨fun a b => Int.le_total (time a.date) (time b.date)⟩

instance (time : String → Int) : IsTrans Tick (tickLe time) :=
  ⟨fun _ _ _ h₁ h₂ => le_trans h₁ h₂⟩

/-- `sortedTicks` from `ratings.ts`: the retained ticks, stably sorted by
full timestamp ascending. -/
def sortedTicks (time : String → Int) (ticks : List Tick) : List Tick :=
  List.insertionSort (tickLe time) (retainedTicks ticks)

/-- The state of the batch-processing loop of `ratings.ts`.  The
`[player, route, score]` triples pushed onto `currentMatches` are
represented by the ticks they are built from (the triple itself is
recovered by `toComp`); `batches` collects, in order, the batches already
flushed to `ranking.updateRatings`; `players` and `routes` are the
insertion-ordered key lists of the `players` / `routeRatings` maps
maintained by `getOrCreateRating`.  The `processedTicks` counter of the
source only feeds progress logging and is omitted. -/
structure LoopState where
  currentDate : String
  currentMatches : List Tick
  batches : List (List Tick)
  players : List Nat
  routes : List Nat
deriving DecidableEq

/-- `getOrCreateRating` restricted to its effect on a map's key list:
`if (!map.has(id)) map.set(id, ranking.makePlayer())`. -/
def insertKey (keys : List Nat) (id : Nat) : List Nat :=
  if id ∈ keys then keys else keys ++ [id]

/-- One iteration of `for (const tick of sortedTicks)`:
skip unratable ticks; flush the current batch when the date token changes
(JS truthiness: the `currentDate &&` guard fails on the empty string);
set `currentDate`; skip ticks without user (dead code after the filter,
kept for fidelity); get-or-create both ratings and push the match. -/
def loopStep (s : LoopState) (t : Tick) : LoopState :=
  match scoreOfTick t with
  | none => s
  | some _ =>
    let tickDate := dateToken t
    let s' :=
      if s.currentDate ≠ "" ∧ tickDate ≠ s.currentDate ∧ s.currentMatches ≠ [] then
        { s with batches := s.batches ++ [s.currentMatches], currentMatches := [] }
      else s
    let s'' := { s' with currentDate := tickDate }
    match t.user with
    | none => s''
    | some u =>
      { s'' with
        players := insertKey s''.players u.id
        routes := insertKey s''.routes t.routeId
        currentMatches := s''.currentMatches ++ [t] }

/-- The final-batch flush after the loop:
`if (currentMatches.length > 0) ranking.updateRatings(currentMatches)`. -/
def loopFinish (s : LoopState) : LoopState :=
  if s.currentMatches ≠ [] then
    { s with batches := s.batches ++ [s.currentMatches], currentMatches := [] }
  else s

/-- The initial loop state: `currentDate = ""`, empty batch, empty maps. -/
def loopInit : LoopState :=
  { currentDate := "", currentMatches := [], batches := [], players := [], routes := [] }

/-- Running the batch loop over a tick sequence. -/
def runLoop (ticks : List Tick) : LoopState :=
  loopFinish (ticks.foldl loopStep loopInit)

/-- The loop state after the whole pipeline front end: filter, populate
indexes, population-filter, sort, batch. -/
def pipelineState (time : String → Int) (ticks : List Tick) : LoopState :=
  runLoop (sortedTicks time ticks)

/-- The batches flushed to `ranking.updateRatings`, in order, with each
match represented by its source tick. -/
def tickBatches (time : String → Int) (ticks : List Tick) : List (List Tick) :=
  (pipelineState time ticks).batches

/-- The `[player, route, score]` triple pushed for a tick, with the player
and route objects named by their map keys: `(user.id, routeId, score)`. -/
def toComp (t : Tick) : Nat × Nat × ℚ :=
  (tickUid t, t.routeId, (scoreOfTick t).getD 0)

/-- The comparison-triple batches fed to the rating engine, in order. -/
def compBatches (time : String → Int) (ticks : List Tick) : List (List (Nat × Nat × ℚ)) :=
  (tickBatches time ticks).map (fun b => b.map toComp)

/-- All comparison triples fed to the rating engine, in feed order. -/
def allComps (time : String → Int) (ticks : List Tick) : List (Nat × Nat × ℚ) :=
  (compBatches time ticks).flatten

/-- A per-entity Glicko-2 rating state (rating, rating deviation,
volatility), in the engine's native units. -/
structure RatingState where
  rating : ℚ
  rd : ℚ
  vol : ℚ
deriving DecidableEq

/-- The defaults of `new Glicko2({...})`: rating 1500, rd 350, vol 0.06. -/
def defaultRating : RatingState :=
  { rating := 1500, rd := 350, vol := 6/100 }

/-- Abstraction of the external `npm:glicko2` library: a deterministic
function from the sequence of comparison batches fed to
`ranking.updateRatings` to the final valuation of every player object and
every route object (named by their map keys).  The library is out of
scope; all results below hold for every such function. -/
abbrev Engine :=
  List (List (Nat × Nat × ℚ)) → (Nat → RatingState) × (Nat → RatingState)

/-- A climber output record `{id, userName?, rating, rd, vol}`.
`rating` and `rd` are `Math.round`ed to integers. -/
structure ClimberRatingResult where
  id : Nat
  userName : Option String
  rating : ℤ
  rd : ℤ
  vol : ℚ
deriving DecidableEq

/-- A route output record `{id, rating, rd, vol, routeInfo?}`. -/
structure RouteRatingResult where
  id : Nat
  rating : ℤ
  rd : ℤ
  vol : ℚ
  routeInfo : Option Route
deriving DecidableEq

/-- The descending-rating comparator `(a, b) => b.rating - a.rating` on
climber records, as the total preorder the stable sort sorts by. -/
def climberDescRel (a b : ClimberRatingResult) : Prop :=
  b.rating ≤ a.rating

instance : DecidableRel climberDescRel :=
  fun a b => inferInstanceAs (Decidable (b.rating ≤ a.rating))

instance : IsTotal ClimberRatingResult climberDescRel :=
  ⟨fun a b => Int.le_total b.rating a.rating⟩

instance : IsTrans ClimberRatingResult climberDescRel :=
  ⟨fun _ _ _ h₁ h₂ => le_trans h₂ h₁⟩

/-- The descending-rating comparator on route records. -/
def routeDescRel (a b : RouteRatingResult) : Prop :=
  b.rating ≤ a.rating

instance : DecidableRel routeDescRel :=
  fun a b => inferInstanceAs (Decidable (b.rating ≤ a.rating))

instance : IsTotal RouteRatingResult routeDescRel :=
  ⟨fun a b => Int.le_total b.rating a.rating⟩

instance : IsTrans RouteRatingResult routeDescRel :=
  ⟨fun _ _ _ h₁ h₂ => le_trans h₂ h₁⟩

/-- `formatRating` plus the `climberRatings` construction of `ratings.ts`:
one record per entry of the `players` map in insertion order, with
`userName = names[id]`, `rating = Math.round(player.getRating())`,
`rd = Math.round(player.getRd())`, `vol = player.getVol()` (Mathlib's
`round` on `ℚ` is `⌊x + 1/2⌋`, which is `Math.round`'s halves-up rule),
then sorted by descending rating. -/
def mkClimberRec (engine : Engine) (time : String → Int) (ticks : List Tick) (i : Nat) :
    ClimberRatingResult :=
  { id := i
    userName := (pass1 ticks).names i
    rating := round ((engine (compBatches time ticks)).1 i).rating
    rd := round ((engine (compBatches time ticks)).1 i).rd
    vol := ((engine (compBatches time ticks)).1 i).vol }

def climberResults (engine : Engine) (time : String → Int) (ticks : List Tick) :
    List ClimberRatingResult :=
  List.insertionSort climberDescRel
    ((pipelineState time ticks).players.map (mkClimberRec engine time ticks))

/-- The `routeResults` construction: one record per entry of the
`routeRatings` map in insertion order, with the route metadata joined by
`routes.find(r => r.id === Number(id))`, sorted by descending rating. -/
def mkRouteRec (engine : Engine) (time : String → Int) (ticks : List Tick)
    (routes : List Route) (i : Nat) : RouteRatingResult :=
  { id := i
    rating := round ((engine (compBatches time ticks)).2 i).rating
    rd := round ((engine (compBatches time ticks)).2 i).rd
    vol := ((engine (compBatches time ticks)).2 i).vol
    routeInfo := routes.find? (fun r => r.id == i) }

def routeResults (engine : Engine) (time : String → Int) (ticks : List Tick)
    (routes : List Route) : List RouteRatingResult :=
  List.insertionSort routeDescRel
    ((pipelineState time ticks).routes.map (mkRouteRec engine time ticks routes))

/-- Spec-side predicate (for refinement comparison only, following the
spec's words): the climber `i` "has logged at least one Fell/Hung outcome
anywhere in the log". -/
def hasFellHungAnywhere (l : List Tick) (i : Nat) : Bool :=
  l.any fun t =>
    (match t.user with
     | some u => u.id == i
     | none => false) && (t.leadStyle == some "Fell/Hung")

/-- Lemma-side predicate: a tick both is scored and carries a user, i.e.
it passes both in-loop guards and is pushed onto the current batch. -/
def pushedB (t : Tick) : Bool :=
  scoredB t && t.user.isSome

/-- Spec-side run builder: given the current batch `m` (ticks so far,
newest last) whose common date token is `d`, split the remaining ticks
into maximal runs of equal date tokens, `m` absorbing the front of the
first run. -/
def runsFrom (f : Tick → String) (m : List Tick) (d : String) : List Tick → List (List Tick)
  | [] => [m]
  | t :: ts =>
    if f t = d then runsFrom f (m ++ [t]) d ts
    else m :: runsFrom f [t] (f t) ts

/-- Spec-side: the maximal runs of equal date tokens of a tick list. -/
def runsBy (f : Tick → String) : List Tick → List (List Tick)
  | [] => []
  | t :: ts => runsFrom f [t] (f t) ts

/-- Lemma-side predicate: what the population filter amounts to for a
tick of log `l` — the tick's climber has at least one eligible Fell/Hung
tick — together with the tick's own eligibility. -/
def retPred (l : List Tick) (t : Tick) : Bool :=
  ((l.filter eligible).any
    fun t' => tickUid t' == tickUid t && t'.leadStyle == some "Fell/Hung") && eligible t

/-- A concrete engine used by witnesses: every identity keeps the default
rating state. -/
def exEngine : Engine :=
  fun _ => (fun _ => defaultRating, fun _ => defaultRating)

/-- Concrete example user. -/
def exUser : User := { id := 5, name := "Ann" }

/-- Concrete `time` function for the example dates, consistent with the
chronological order `new Date` gives them (epoch milliseconds). -/
def timeEx (s : String) : Int :=
  if s = "Nov 7, 2021" then 1636261200000
  else if s = "Nov 8, 2021" then 1636347600000
  else if s = "Dec 1, 2021" then 1638334800000
  else if s = "Nov 7, 2022" then 1667797200000
  else 0

/-- Example: a lead fall on Nov 7, 2021. -/
def exFellHung : Tick :=
  { routeId := 10, id := 1, date := "Nov 7, 2021", style := "Lead",
    leadStyle := some "Fell/Hung", user := some exUser }

/-- Example: a lead onsight on Dec 1, 2021. -/
def exDecOnsight : Tick :=
  { routeId := 11, id := 2, date := "Dec 1, 2021", style := "Lead",
    leadStyle := some "Onsight", user := some exUser }

/-- Example: a lead onsight on Nov 7, 2022 — same date token `"Nov 7"` as
`exFellHung`, one year later. -/
def exOnsight2022 : Tick :=
  { routeId := 12, id := 3, date := "Nov 7, 2022", style := "Lead",
    leadStyle := some "Onsight", user := some exUser }

/-- Example: a lead onsight on Nov 8, 2021. -/
def exOnsight : Tick :=
  { routeId := 11, id := 2, date := "Nov 8, 2021", style := "Lead",
    leadStyle := some "Onsight", user := some exUser }

/-- Example: a top-rope fall — `style` is not `"Lead"`, so the tick is
not eligible, but its climber did log a Fell/Hung outcome. -/
def exTR : Tick :=
  { routeId := 10, id := 1, date := "Nov 7, 2021", style := "TR",
    leadStyle := some "Fell/Hung", user := some exUser }

/-- Example: an eligible tick whose `leadStyle` is the empty string. -/
def exEmptyLabel : Tick :=
  { routeId := 11, id := 4, date := "Nov 8, 2021", style := "Lead",
    leadStyle := some "", user := some exUser }

/-- Example: a lead "Pinkpoint" tick — not in the score mapping, so
unratable. -/
def exPinkpoint : Tick :=
  { routeId := 42, id := 9, date := "Nov 8, 2021", style := "Lead",
    leadStyle := some "Pinkpoint", user := some (User.mk 7 "Bob") }

/-! ### Characterization of the first pass (eligibility filter + indexes) -/

theorem pass1Step_kept (s : Pass1State) (t : Tick) :
    (pass1Step s t).kept = if eligible t = true then s.kept ++ [t] else s.kept := by
  rcases ht : t.user with _ | u
  · simp [pass1Step, eligible, ht]
  · by_cases h : (t.leadStyle.isSome && (t.style == "Lead")) = true
    · simp [pass1Step, eligible, ht, h]
    · simp [pass1Step, eligible, ht, h]

theorem pass1Step_names (s : Pass1State) (t : Tick) (i : Nat) :
    (pass1Step s t).names i =
      if eligible t = true ∧ tickUid t = i then tickName t else s.names i := by
  rcases ht : t.user with _ | u
  · simp [pass1Step, eligible, ht]
  · by_cases h : (t.leadStyle.isSome && (t.style == "Lead")) = true
    · by_cases hi : i = u.id
      · simp [pass1Step, eligible, tickName, tickUid, ht, h, hi]
      · simp [pass1Step, eligible, tickName, tickUid, ht, h, hi, Ne.symm hi]
    · simp [pass1Step, eligible, ht, h]

theorem pass1Step_userTicks (s : Pass1State) (t : Tick) (i : Nat) :
    (pass1Step s t).userTicks i =
      if eligible t = true ∧ tickUid t = i then s.userTicks i ++ [t] else s.userTicks i := by
  rcases ht : t.user with _ | u
  · simp [pass1Step, eligible, ht]
  · by_cases h : (t.leadStyle.isSome && (t.style == "Lead")) = true
    · by_cases hi : i = u.id
      · simp [pass1Step, eligible, tickUid, ht, h, hi]
      · simp [pass1Step, eligible, tickUid, ht, h, hi, Ne.symm hi]
    · simp [pass1Step, eligible, ht, h]

theorem foldl_pass1_kept : ∀ (l : List Tick) (s : Pass1State),
    (l.foldl pass1Step s).kept = s.kept ++ l.filter eligible := by
  intro l
  induction l with
  | nil => intro s; simp
  | cons t l ih =>
    intro s
    rw [List.foldl_cons, ih, pass1Step_kept, List.filter_cons]
    by_cases he : eligible t = true <;> simp [he]

theorem pass1_kept (l : List Tick) : (pass1 l).kept = l.filter eligible := by
  rw [pass1, foldl_pass1_kept]; rfl

theorem foldl_pass1_userTicks : ∀ (l : List Tick) (s : Pass1State) (i : Nat),
    (l.foldl pass1Step s).userTicks i =
      s.userTicks i ++ (l.filter eligible).filter (fun t => tickUid t == i) := by
  intro l
  induction l with
  | nil => intro s i; simp
  | cons t l ih =>
    intro s i
    rw [List.foldl_cons, ih, pass1Step_userTicks, List.filter_cons]
    by_cases he : eligible t = true
    · by_cases hi : tickUid t = i
      · simp [he, hi, List.filter_cons]
      · simp [he, hi, List.filter_cons]
    · simp [he]

theorem pass1_userTicks (l : List Tick) (i : Nat) :
    (pass1 l).userTicks i = (l.filter eligible).filter (fun t => tickUid t == i) := by
  rw [pass1, foldl_pass1_userTicks]; rfl

theorem foldl_pass1_names : ∀ (l : List Tick) (s : Pass1State) (i : Nat),
    (l.foldl pass1Step s).names i =
      ((l.filter eligible).filter (fun t => tickUid t == i)).foldl
        (fun _ t => tickName t) (s.names i) := by
  intro l
  induction l with
  | nil => intro s i; simp
  | cons t l ih =>
    intro s i
    rw [List.foldl_cons, ih, pass1Step_names, List.filter_cons]
    by_cases he : eligible t = true
    · by_cases hi : tickUid t = i
      · simp [he, hi, List.filter_cons]
      · simp [he, hi, List.filter_cons]
    · simp [he]

theorem foldl_const_last {β : Type} (g : Tick → β) (L : List Tick) (init : β) :
    L.foldl (fun _ t => g t) init = (L.getLast?).elim init g := by
  induction L using List.reverseRecOn with
  | nil => rfl
  | append_singleton M t _ => simp [List.foldl_append, List.getLast?_concat]

theorem pass1_names (l : List Tick) (i : Nat) :
    (pass1 l).names i =
      (((l.filter eligible).filter (fun t => tickUid t == i)).getLast?).bind tickName := by
  rw [pass1, foldl_pass1_names, foldl_const_last]
  rcases ((l.filter eligible).filter (fun t => tickUid t == i)).getLast? with _ | t <;> rfl

/-! ### Characterization of the population filter -/

theorem retainedTicks_eq (l : List Tick) :
    retainedTicks l = (l.filter eligible).filter
      (fun t => (l.filter eligible).any
        fun t' => tickUid t' == tickUid t && t'.leadStyle == some "Fell/Hung") := by
  show (pass1 l).kept.filter _ = _
  rw [pass1_kept]
  apply List.filter_congr
  intro t ht
  have he : eligible t = true := (List.mem_filter.mp ht).2
  have hu : t.user.isSome = true := by
    have := he; unfold eligible at this; simp at this; exact this.1.1
  obtain ⟨u, hu'⟩ := Option.isSome_iff_exists.mp hu
  simp only [hu']
  rw [pass1_userTicks, hasFellHung, List.any_filter]
  congr 1
  funext t'
  simp [tickUid, hu']

theorem mem_retainedTicks {l : List Tick} {t : Tick} (h : t ∈ retainedTicks l) :
    t ∈ l ∧ eligible t = true := by
  have h1 : t ∈ (pass1 l).kept := List.mem_of_mem_filter h
  rw [pass1_kept] at h1
  exact ⟨List.mem_of_mem_filter h1, (List.mem_filter.mp h1).2⟩

theorem mem_sortedTicks {time : String → Int} {l : List Tick} {t : Tick}
    (h : t ∈ sortedTicks time l) : t ∈ l ∧ eligible t = true :=
  mem_retainedTicks ((List.perm_insertionSort (tickLe time) (retainedTicks l)).mem_iff.mp h)

/-! ### A stable sort commutes with `filter` -/

theorem filter_orderedInsert {α : Type} (r : α → α → Prop) [DecidableRel r] [IsTrans α r]
    (p : α → Bool) (a : α) :
    ∀ L : List α, L.Sorted r →
      (List.orderedInsert r a L).filter p =
        if p a then List.orderedInsert r a (L.filter p) else L.filter p := by
  intro L
  induction L with
  | nil => intro _; simp [List.orderedInsert, List.filter_cons]
  | cons b L ih =>
    intro hs
    by_cases hr : r a b
    · by_cases hpa : p a
      · by_cases hpb : p b
        · simp [List.orderedInsert, hr, hpa, hpb, List.filter_cons]
        · simp only [List.orderedInsert, if_pos hr, List.filter_cons, hpa, hpb,
            Bool.false_eq_true, if_false, if_true]
          rcases hfl : L.filter p with _ | ⟨c, M⟩
          · simp [List.orderedInsert]
          · have hc : c ∈ L.filter p := by rw [hfl]; exact List.mem_cons_self c M
            have hcL : c ∈ L := List.mem_of_mem_filter hc
            have hbc : r b c := List.rel_of_sorted_cons hs c hcL
            have hac : r a c := Trans.trans hr hbc
            simp [List.orderedInsert, hac]
      · simp [List.orderedInsert, hr, hpa, List.filter_cons]
    · by_cases hpb : p b
      · simp [List.orderedInsert, hr, hpb, List.filter_cons, ih hs.of_cons]
        by_cases hpa : p a <;> simp [hpa, List.orderedInsert, hr]
      · simp [List.orderedInsert, hr, hpb, List.filter_cons, ih hs.of_cons]

theorem filter_insertionSort {α : Type} (r : α → α → Prop) [DecidableRel r]
    [IsTotal α r] [IsTrans α r] (p : α → Bool) :
    ∀ l : List α, (List.insertionSort r l).filter p = List.insertionSort r (l.filter p) := by
  intro l
  induction l with
  | nil => rfl
  | cons a l ih =>
    rw [List.insertionSort,
      filter_orderedInsert r p a _ (List.sorted_insertionSort r l), List.filter_cons]
    by_cases hpa : p a <;> simp [hpa, List.insertionSort, ih]

/-! ### Characterization of the batch loop -/

theorem loopStep_unscored {t : Tick} (s : LoopState) (h : scoreOfTick t = none) :
    loopStep s t = s := by
  simp [loopStep, h]

theorem foldl_loopStep_filter : ∀ (ts : List Tick) (s : LoopState),
    ts.foldl loopStep s = (ts.filter scoredB).foldl loopStep s := by
  intro ts
  induction ts with
  | nil => intro s; rfl
  | cons t ts ih =>
    intro s
    rw [List.foldl_cons, List.filter_cons]
    rcases ho : scoreOfTick t with _ | q
    · have h : scoredB t = false := by simp [scoredB, ho]
      rw [h, loopStep_unscored s ho, ih]
      simp
    · have h : scoredB t = true := by simp [scoredB, ho]
      rw [h]
      simp only [if_true, List.foldl_cons, ih]

theorem loopStep_push_flush {t : Tick} {s : LoopState} {q : ℚ} {u : User}
    (hq : scoreOfTick t = some q) (hu : t.user = some u)
    (hf : s.currentDate ≠ "" ∧ dateToken t ≠ s.currentDate ∧ s.currentMatches ≠ []) :
    loopStep s t =
      { currentDate := dateToken t, currentMatches := [t],
        batches := s.batches ++ [s.currentMatches],
        players := insertKey s.players u.id,
        routes := insertKey s.routes t.routeId } := by
  simp [loopStep, hq, hu, hf]

theorem loopStep_push_noflush {t : Tick} {s : LoopState} {q : ℚ} {u : User}
    (hq : scoreOfTick t = some q) (hu : t.user = some u)
    (hf : ¬(s.currentDate ≠ "" ∧ dateToken t ≠ s.currentDate ∧ s.currentMatches ≠ [])) :
    loopStep s t =
      { currentDate := dateToken t, currentMatches := s.currentMatches ++ [t],
        batches := s.batches,
        players := insertKey s.players u.id,
        routes := insertKey s.routes t.routeId } := by
  simp [loopStep, hq, hu, hf]

theorem loopFinish_flatten (s : LoopState) :
    (loopFinish s).batches.flatten = s.batches.flatten ++ s.currentMatches := by
  unfold loopFinish
  by_cases h : s.currentMatches ≠ []
  · simp [h]
  · simp at h
    simp [h]

theorem loopFinish_players (s : LoopState) : (loopFinish s).players = s.players := by
  unfold loopFinish; split <;> rfl

theorem loopFinish_routes (s : LoopState) : (loopFinish s).routes = s.routes := by
  unfold loopFinish; split <;> rfl

theorem foldl_loopStep_flatten : ∀ (vs : List Tick) (s : LoopState),
    (∀ t ∈ vs, scoredB t = true ∧ t.user.isSome = true) →
    (vs.foldl loopStep s).batches.flatten ++ (vs.foldl loopStep s).currentMatches =
      s.batches.flatten ++ s.currentMatches ++ vs := by
  intro vs
  induction vs with
  | nil => intro s _; simp
  | cons t vs ih =>
    intro s h
    obtain ⟨hs, hu⟩ := h t (List.mem_cons_self t vs)
    obtain ⟨q, hq⟩ := Option.isSome_iff_exists.mp (by simpa [scoredB] using hs)
    obtain ⟨u, hu'⟩ := Option.isSome_iff_exists.mp hu
    have hrest : ∀ x ∈ vs, scoredB x = true ∧ x.user.isSome = true :=
      fun x hx => h x (List.mem_cons_of_mem t hx)
    rw [List.foldl_cons]
    by_cases hf : s.currentDate ≠ "" ∧ dateToken t ≠ s.currentDate ∧ s.currentMatches ≠ []
    · rw [loopStep_push_flush hq hu' hf, ih _ hrest]
      simp [hf.2.2]
    · rw [loopStep_push_noflush hq hu' hf, ih _ hrest]
      simp

theorem foldl_loopStep_players : ∀ (vs : List Tick) (s : LoopState),
    (∀ t ∈ vs, scoredB t = true ∧ t.user.isSome = true) →
    (vs.foldl loopStep s).players =
      vs.foldl (fun ks t => insertKey ks (tickUid t)) s.players := by
  intro vs
  induction vs with
  | nil => intro s _; rfl
  | cons t vs ih =>
    intro s h
    obtain ⟨hs, hu⟩ := h t (List.mem_cons_self t vs)
    obtain ⟨q, hq⟩ := Option.isSome_iff_exists.mp (by simpa [scoredB] using hs)
    obtain ⟨u, hu'⟩ := Option.isSome_iff_exists.mp hu
    have hrest : ∀ x ∈ vs, scoredB x = true ∧ x.user.isSome = true :=
      fun x hx => h x (List.mem_cons_of_mem t hx)
    rw [List.foldl_cons, List.foldl_cons]
    have huid : tickUid t = u.id := by simp [tickUid, hu']
    by_cases hf : s.currentDate ≠ "" ∧ dateToken t ≠ s.currentDate ∧ s.currentMatches ≠ []
    · rw [loopStep_push_flush hq hu' hf, ih _ hrest, huid]
    · rw [loopStep_push_noflush hq hu' hf, ih _ hrest, huid]

theorem foldl_loopStep_routes : ∀ (vs : List Tick) (s : LoopState),
    (∀ t ∈ vs, scoredB t = true ∧ t.user.isSome = true) →
    (vs.foldl loopStep s).routes =
      vs.foldl (fun ks t => insertKey ks t.routeId) s.routes := by
  intro vs
  induction vs with
  | nil => intro s _; rfl
  | cons t vs ih =>
    intro s h
    obtain ⟨hs, hu⟩ := h t (List.mem_cons_self t vs)
    obtain ⟨q, hq⟩ := Option.isSome_iff_exists.mp (by simpa [scoredB] using hs)
    obtain ⟨u, hu'⟩ := Option.isSome_iff_exists.mp hu
    have hrest : ∀ x ∈ vs, scoredB x = true ∧ x.user.isSome = true :=
      fun x hx => h x (List.mem_cons_of_mem t hx)
    rw [List.foldl_cons, List.foldl_cons]
    by_cases hf : s.currentDate ≠ "" ∧ dateToken t ≠ s.currentDate ∧ s.currentMatches ≠ []
    · rw [loopStep_push_flush hq hu' hf, ih _ hrest]
    · rw [loopStep_push_noflush hq hu' hf, ih _ hrest]

theorem mem_insertKey {ks : List Nat} {k i : Nat} : i ∈ insertKey ks k ↔ i ∈ ks ∨ i = k := by
  unfold insertKey
  by_cases h : k ∈ ks
  · simp only [h, if_true]
    constructor
    · exact Or.inl
    · rintro (hi | rfl)
      · exact hi
      · exact h
  · simp [h]

theorem mem_foldl_insertKey (g : Tick → Nat) : ∀ (ts : List Tick) (init : List Nat) (i : Nat),
    i ∈ ts.foldl (fun ks t => insertKey ks (g t)) init ↔ i ∈ init ∨ ∃ t ∈ ts, g t = i := by
  intro ts
  induction ts with
  | nil => simp
  | cons t ts ih =>
    intro init i
    rw [List.foldl_cons, ih]
    simp only [mem_insertKey, List.mem_cons]
    constructor
    · rintro ((hi | rfl) | ⟨x, hx, hgx⟩)
      · exact Or.inl hi
      · exact Or.inr ⟨t, Or.inl rfl, rfl⟩
      · exact Or.inr ⟨x, Or.inr hx, hgx⟩
    · rintro (hi | ⟨x, (rfl | hx), hgx⟩)
      · exact Or.inl (Or.inl hi)
      · exact Or.inl (Or.inr hgx.symm)
      · exact Or.inr ⟨x, hx, hgx⟩

theorem foldl_loopStep_runs : ∀ (vs : List Tick) (s : LoopState),
    (∀ t ∈ vs, scoredB t = true ∧ t.user.isSome = true ∧ dateToken t ≠ "") →
    s.currentMatches ≠ [] → s.currentDate ≠ "" →
    (loopFinish (vs.foldl loopStep s)).batches =
      s.batches ++ runsFrom dateToken s.currentMatches s.currentDate vs := by
  intro vs
  induction vs with
  | nil =>
    intro s _ hm _
    simp [loopFinish, hm, runsFrom]
  | cons t vs ih =>
    intro s h hm hd
    obtain ⟨hs, hu, hne⟩ := h t (List.mem_cons_self t vs)
    obtain ⟨q, hq⟩ := Option.isSome_iff_exists.mp (by simpa [scoredB] using hs)
    obtain ⟨u, hu'⟩ := Option.isSome_iff_exists.mp hu
    have hrest : ∀ x ∈ vs, scoredB x = true ∧ x.user.isSome = true ∧ dateToken x ≠ "" :=
      fun x hx => h x (List.mem_cons_of_mem t hx)
    rw [List.foldl_cons]
    by_cases hτ : dateToken t = s.currentDate
    · have hf : ¬(s.currentDate ≠ "" ∧ dateToken t ≠ s.currentDate ∧ s.currentMatches ≠ []) := by
        intro hcon; exact hcon.2.1 hτ
      rw [loopStep_push_noflush hq hu' hf]
      have := ih ⟨dateToken t, s.currentMatches ++ [t], s.batches,
        insertKey s.players u.id, insertKey s.routes t.routeId⟩
        hrest (by simp) (by simpa using hne)
      rw [this, runsFrom, if_pos hτ, hτ]
    · have hf : s.currentDate ≠ "" ∧ dateToken t ≠ s.currentDate ∧ s.currentMatches ≠ [] :=
        ⟨hd, hτ, hm⟩
      rw [loopStep_push_flush hq hu' hf]
      have := ih ⟨dateToken t, [t], s.batches ++ [s.currentMatches],
        insertKey s.players u.id, insertKey s.routes t.routeId⟩
        hrest (by simp) hne
      rw [this, runsFrom, if_neg hτ]
      simp

theorem runLoop_runs (vs : List Tick)
    (h : ∀ t ∈ vs, scoredB t = true ∧ t.user.isSome = true ∧ dateToken t ≠ "") :
    (runLoop vs).batches = runsBy dateToken vs := by
  rcases vs with _ | ⟨t, vs⟩
  · rfl
  · obtain ⟨hs, hu, hne⟩ := h t (List.mem_cons_self t vs)
    obtain ⟨q, hq⟩ := Option.isSome_iff_exists.mp (by simpa [scoredB] using hs)
    obtain ⟨u, hu'⟩ := Option.isSome_iff_exists.mp hu
    have hrest : ∀ x ∈ vs, scoredB x = true ∧ x.user.isSome = true ∧ dateToken x ≠ "" :=
      fun x hx => h x (List.mem_cons_of_mem t hx)
    rw [runLoop, List.foldl_cons]
    have hf : ¬(loopInit.currentDate ≠ "" ∧ dateToken t ≠ loopInit.currentDate ∧
        loopInit.currentMatches ≠ []) := by
      intro hcon; exact hcon.1 rfl
    rw [loopStep_push_noflush hq hu' hf]
    have := foldl_loopStep_runs vs ⟨dateToken t, loopInit.currentMatches ++ [t],
      loopInit.batches, insertKey loopInit.players u.id, insertKey loopInit.routes t.routeId⟩
      hrest (by simp) hne
    rw [this, runsBy]
    rfl

theorem runsFrom_chunks (f : Tick → String) : ∀ (ts m : List Tick) (d : String),
    m ≠ [] → (∀ x ∈ m, f x = d) →
    ∀ b ∈ runsFrom f m d ts, b ≠ [] ∧ ∀ t₁ ∈ b, ∀ t₂ ∈ b, f t₁ = f t₂ := by
  intro ts
  induction ts with
  | nil =>
    intro m d hm hall b hb
    rw [runsFrom] at hb
    rcases List.mem_singleton.mp hb
    exact ⟨hm, fun t₁ h₁ t₂ h₂ => (hall t₁ h₁).trans (hall t₂ h₂).symm⟩
  | cons t ts ih =>
    intro m d hm hall b hb
    rw [runsFrom] at hb
    by_cases hτ : f t = d
    · rw [if_pos hτ] at hb
      refine ih (m ++ [t]) d (by simp) ?_ b hb
      intro x hx
      rcases List.mem_append.mp hx with hx | hx
      · exact hall x hx
      · rcases List.mem_singleton.mp hx; exact hτ
    · rw [if_neg hτ] at hb
      rcases List.mem_cons.mp hb with rfl | hb
      · exact ⟨hm, fun t₁ h₁ t₂ h₂ => (hall t₁ h₁).trans (hall t₂ h₂).symm⟩
      · exact ih [t] (f t) (by simp) (by simp) b hb

theorem runsBy_chunks (f : Tick → String) (vs : List Tick) :
    ∀ b ∈ runsBy f vs, b ≠ [] ∧ ∀ t₁ ∈ b, ∀ t₂ ∈ b, f t₁ = f t₂ := by
  rcases vs with _ | ⟨t, vs⟩
  · intro b hb; cases hb
  · exact runsFrom_chunks f vs [t] (f t) (by simp) (by simp)

/-! ### Top-level batch structure -/

theorem sortedTicks_all_eligible {time : String → Int} {l : List Tick} :
    ∀ t ∈ (sortedTicks time l).filter scoredB,
      scoredB t = true ∧ t.user.isSome = true := by
  intro t ht
  have h1 : t ∈ sortedTicks time l := List.mem_of_mem_filter ht
  have h2 := (mem_sortedTicks h1).2
  have hu : t.user.isSome = true := by
    unfold eligible at h2; simp at h2; exact h2.1.1
  exact ⟨(List.mem_filter.mp ht).2, hu⟩

theorem tickBatches_flatten (time : String → Int) (l : List Tick) :
    (tickBatches time l).flatten = (sortedTicks time l).filter scoredB := by
  rw [tickBatches, pipelineState, runLoop, foldl_loopStep_filter, loopFinish_flatten,
    foldl_loopStep_flatten _ _ sortedTicks_all_eligible]
  rfl

theorem tickBatches_runs (time : String → Int) (l : List Tick)
    (hne : ∀ t ∈ l, dateToken t ≠ "") :
    tickBatches time l = runsBy dateToken ((sortedTicks time l).filter scoredB) := by
  rw [tickBatches, pipelineState, runLoop, foldl_loopStep_filter]
  rw [show loopFinish (((sortedTicks time l).filter scoredB).foldl loopStep loopInit) =
    runLoop ((sortedTicks time l).filter scoredB) from rfl]
  apply runLoop_runs
  intro t ht
  obtain ⟨hs, hu⟩ := sortedTicks_all_eligible t ht
  have h1 : t ∈ sortedTicks time l := List.mem_of_mem_filter ht
  exact ⟨hs, hu, hne t (mem_sortedTicks h1).1⟩

theorem pipelineState_players (time : String → Int) (l : List Tick) :
    (pipelineState time l).players =
      ((sortedTicks time l).filter scoredB).foldl
        (fun ks t => insertKey ks (tickUid t)) [] := by
  rw [pipelineState, runLoop, loopFinish_players, foldl_loopStep_filter,
    foldl_loopStep_players _ _ sortedTicks_all_eligible]
  rfl

theorem pipelineState_routes (time : String → Int) (l : List Tick) :
    (pipelineState time l).routes =
      ((sortedTicks time l).filter scoredB).foldl
        (fun ks t => insertKey ks t.routeId) [] := by
  rw [pipelineState, runLoop, loopFinish_routes, foldl_loopStep_filter,
    foldl_loopStep_routes _ _ sortedTicks_all_eligible]
  rfl

/-! ### Removing an unratable tick does not change the batches -/

theorem fellHung_of_unscored {e : Tick} (he : scoreOfTick e = none) :
    (e.leadStyle == some "Fell/Hung") = false := by
  rcases hl : e.leadStyle with _ | s
  · rfl
  · have hg : getScore s = none := by
      rw [scoreOfTick, hl] at he; simpa using he
    have hs : s ≠ "Fell/Hung" := by
      intro h
      rw [h] at hg
      exact absurd hg (by decide)
    simp [hs]

theorem scoredB_false_of_unscored {e : Tick} (he : scoreOfTick e = none) :
    scoredB e = false := by
  simp [scoredB, he]

theorem fhAny_middle (l₁ l₂ : List Tick) (e : Tick) (he : scoreOfTick e = none) (t : Tick) :
    ((l₁ ++ e :: l₂).filter eligible).any
        (fun t' => tickUid t' == tickUid t && t'.leadStyle == some "Fell/Hung") =
      ((l₁ ++ l₂).filter eligible).any
        (fun t' => tickUid t' == tickUid t && t'.leadStyle == some "Fell/Hung") := by
  simp [List.any_filter, List.any_cons, fellHung_of_unscored he]

theorem filter_middle_false {α : Type} {P : α → Bool} (l₁ l₂ : List α) (e : α)
    (h : P e = false) : (l₁ ++ e :: l₂).filter P = (l₁ ++ l₂).filter P := by
  simp [List.filter_append, List.filter_cons, h]

theorem retainedTicks_retPred (l : List Tick) :
    retainedTicks l = l.filter (retPred l) := by
  rw [retainedTicks_eq, List.filter_filter]
  rfl

theorem retPred_middle (l₁ l₂ : List Tick) (e : Tick) (he : scoreOfTick e = none) (t : Tick) :
    retPred (l₁ ++ e :: l₂) t = retPred (l₁ ++ l₂) t := by
  unfold retPred
  rw [fhAny_middle l₁ l₂ e he t]

theorem retained_scored_middle (l₁ l₂ : List Tick) (e : Tick) (he : scoreOfTick e = none) :
    (retainedTicks (l₁ ++ e :: l₂)).filter scoredB =
      (retainedTicks (l₁ ++ l₂)).filter scoredB := by
  rw [retainedTicks_retPred, retainedTicks_retPred, List.filter_filter, List.filter_filter]
  calc (l₁ ++ e :: l₂).filter (fun a => scoredB a && retPred (l₁ ++ e :: l₂) a)
      = (l₁ ++ e :: l₂).filter (fun a => scoredB a && retPred (l₁ ++ l₂) a) :=
        List.filter_congr fun t _ => by rw [retPred_middle l₁ l₂ e he t]
    _ = (l₁ ++ l₂).filter (fun a => scoredB a && retPred (l₁ ++ l₂) a) :=
        filter_middle_false l₁ l₂ e (by rw [scoredB_false_of_unscored he]; rfl)

theorem survivors_middle (time : String → Int) (l₁ l₂ : List Tick) (e : Tick)
    (he : scoreOfTick e = none) :
    (sortedTicks time (l₁ ++ e :: l₂)).filter scoredB =
      (sortedTicks time (l₁ ++ l₂)).filter scoredB := by
  rw [sortedTicks, sortedTicks, filter_insertionSort, filter_insertionSort,
    retained_scored_middle l₁ l₂ e he]

theorem tickBatches_middle (time : String → Int) (l₁ l₂ : List Tick) (e : Tick)
    (he : scoreOfTick e = none) :
    tickBatches time (l₁ ++ e :: l₂) = tickBatches time (l₁ ++ l₂) := by
  have h1 : tickBatches time (l₁ ++ e :: l₂) =
      (loopFinish (((sortedTicks time (l₁ ++ e :: l₂)).filter scoredB).foldl
        loopStep loopInit)).batches := by
    rw [tickBatches, pipelineState, runLoop, foldl_loopStep_filter]
  have h2 : tickBatches time (l₁ ++ l₂) =
      (loopFinish (((sortedTicks time (l₁ ++ l₂)).filter scoredB).foldl
        loopStep loopInit)).batches := by
    rw [tickBatches, pipelineState, runLoop, foldl_loopStep_filter]
  rw [h1, h2, survivors_middle time l₁ l₂ e he]

/-! ### Output collections -/

theorem allComps_eq (time : String → Int) (l : List Tick) :
    allComps time l = ((sortedTicks time l).filter scoredB).map toComp := by
  rw [allComps, compBatches, ← List.map_flatten, tickBatches_flatten]

theorem mem_climberResults {engine : Engine} {time : String → Int} {l : List Tick}
    {rec : ClimberRatingResult} :
    rec ∈ climberResults engine time l ↔
      ∃ i ∈ (pipelineState time l).players, rec = mkClimberRec engine time l i := by
  rw [climberResults, (List.perm_insertionSort climberDescRel _).mem_iff, List.mem_map]
  constructor
  · rintro ⟨i, hi, rfl⟩; exact ⟨i, hi, rfl⟩
  · rintro ⟨i, hi, rfl⟩; exact ⟨i, hi, rfl⟩

theorem mem_routeResults {engine : Engine} {time : String → Int} {l : List Tick}
    {routes : List Route} {rec : RouteRatingResult} :
    rec ∈ routeResults engine time l routes ↔
      ∃ i ∈ (pipelineState time l).routes, rec = mkRouteRec engine time l routes i := by
  rw [routeResults, (List.perm_insertionSort routeDescRel _).mem_iff, List.mem_map]
  constructor
  · rintro ⟨i, hi, rfl⟩; exact ⟨i, hi, rfl⟩
  · rintro ⟨i, hi, rfl⟩; exact ⟨i, hi, rfl⟩

theorem players_sub_comps {time : String → Int} {l : List Tick} {i : Nat}
    (h : i ∈ (pipelineState time l).players) : ∃ c ∈ allComps time l, c.1 = i := by
  rw [pipelineState_players] at h
  rcases (mem_foldl_insertKey tickUid _ [] i).mp h with h0 | ⟨t, ht, hgt⟩
  · cases h0
  · exact ⟨toComp t, by rw [allComps_eq]; exact List.mem_map_of_mem toComp ht, hgt⟩

theorem routes_sub_comps {time : String → Int} {l : List Tick} {i : Nat}
    (h : i ∈ (pipelineState time l).routes) : ∃ c ∈ allComps time l, c.2.1 = i := by
  rw [pipelineState_routes] at h
  rcases (mem_foldl_insertKey (fun t => t.routeId) _ [] i).mp h with h0 | ⟨t, ht, hgt⟩
  · cases h0
  · exact ⟨toComp t, by rw [allComps_eq]; exact List.mem_map_of_mem toComp ht, hgt⟩

theorem names_isSome_of_mem_players {time : String → Int} {l : List Tick} {i : Nat}
    (h : i ∈ (pipelineState time l).players) :
    ((pass1 l).names i).isSome = true := by
  rw [pipelineState_players] at h
  rcases (mem_foldl_insertKey tickUid _ [] i).mp h with h0 | ⟨t, ht, hgt⟩
  · cases h0
  · have h1 : t ∈ sortedTicks time l := List.mem_of_mem_filter ht
    obtain ⟨hl, he⟩ := mem_sortedTicks h1
    have ht' : t ∈ (l.filter eligible).filter (fun x => tickUid x == i) := by
      rw [List.mem_filter, List.mem_filter]
      exact ⟨⟨hl, he⟩, by simp [hgt]⟩
    rw [pass1_names]
    rcases hlast : ((l.filter eligible).filter (fun x => tickUid x == i)).getLast? with _ | t'
    · rw [List.getLast?_eq_none_iff] at hlast
      rw [hlast] at ht'
      cases ht'
    · have ht'' := List.mem_of_getLast?_eq_some hlast
      have he' : eligible t' = true := (List.mem_filter.mp (List.mem_of_mem_filter ht'')).2
      have hu : t'.user.isSome = true := by
        unfold eligible at he'; simp at he'; exact he'.1.1
      obtain ⟨u, hu'⟩ := Option.isSome_iff_exists.mp hu
      simp [tickName, hu']

/-! ### Claim C5 -/

/-- C5: for every ascent-style label the Score Mapper returns the
documented constant — Onsight 1.0, Fell/Hung 0.0, and, in the claim's
"alternate variant" implemented by this code, Flash 0.9 and Redpoint 0.7 —
and for any other string, including the empty string, it returns
"not ratable" (`none`). -/
theorem C5_score_mapper :
    getScore "Onsight" = some 1 ∧ getScore "Flash" = some (9/10) ∧
    getScore "Redpoint" = some (7/10) ∧ getScore "Fell/Hung" = some 0 ∧
    ∀ s : String, s ∉ (["Onsight", "Flash", "Redpoint", "Fell/Hung"] : List String) →
      getScore s = none := by
  refine ⟨rfl, rfl, rfl, rfl, ?_⟩
  intro s hs
  simp only [List.mem_cons, List.not_mem_nil, or_false, not_or] at hs
  obtain ⟨h1, h2, h3, h4⟩ := hs
  rw [getScore, if_neg h1, if_neg h2, if_neg h3, if_neg h4]

/-- C5 witness: the empty string is not a recognized label and maps to
"not ratable". -/
theorem C5_score_mapper_witness :
    ("" : String) ∉ (["Onsight", "Flash", "Redpoint", "Fell/Hung"] : List String) ∧
    getScore "" = none :=
  ⟨by decide, C5_score_mapper.2.2.2.2 "" (by decide)⟩

/-! ### Claim C4 -/

/-- C4 counterexample: the eligibility filter only checks that
`leadStyle` is not `undefined`, so an eligible event may carry the empty
ascent-style label — refuting "carries a non-empty ascent-style label". -/
theorem C4_counterexample :
    ¬ (∀ l : List Tick, ∀ t ∈ (pass1 l).kept, t.leadStyle ≠ some "") := by
  intro h
  exact h [exEmptyLabel] exEmptyLabel (by decide) rfl

/-- C4 (amended): the filtered eligible set is exactly the ticks with a
present (resolvable) climber, a *present* (possibly empty) ascent-style
label, and ascent mode exactly `"Lead"`; all other events are silently
absent from the filter's output (no error channel exists). -/
theorem C4_eligibility (l : List Tick) :
    (pass1 l).kept = l.filter eligible ∧
    ∀ t ∈ (pass1 l).kept,
      t.user.isSome = true ∧ t.leadStyle.isSome = true ∧ t.style = "Lead" := by
  refine ⟨pass1_kept l, ?_⟩
  intro t ht
  rw [pass1_kept] at ht
  have he := (List.mem_filter.mp ht).2
  unfold eligible at he
  simp at he
  exact ⟨he.1.1, he.1.2, he.2⟩

/-- C4 witness: a concrete eligible tick. -/
theorem C4_eligibility_witness :
    exOnsight ∈ (pass1 [exOnsight]).kept ∧
    (exOnsight.user.isSome = true ∧ exOnsight.leadStyle.isSome = true ∧
      exOnsight.style = "Lead") :=
  ⟨by decide, (C4_eligibility [exOnsight]).2 exOnsight (by decide)⟩

/-! ### Claim C2 -/

/-- C2 counterexample: climber 5 logged a Fell/Hung outcome in the log
(`exTR`), but on a top-rope tick, which is not eligible; the code's
population filter only consults the index of *eligible* ticks, so the
climber's eligible Onsight is dropped even though the claim says it must
be retained. -/
theorem C2_counterexample :
    ¬ (retainedTicks [exTR, exOnsight] =
        (pass1 [exTR, exOnsight]).kept.filter
          (fun t => hasFellHungAnywhere [exTR, exOnsight] (tickUid t))) := by
  decide

/-- C2 (amended): the retained events are exactly the eligible events
whose climber has at least one Fell/Hung outcome among the climber's
*eligible* events (not "anywhere in the log"); the per-climber index the
filter consults is the complete index over the whole log's eligible
events, built before batching. -/
theorem C2_population_filter (l : List Tick) :
    retainedTicks l = (l.filter eligible).filter
      (fun t => (l.filter eligible).any
        fun t' => tickUid t' == tickUid t && t'.leadStyle == some "Fell/Hung") :=
  retainedTicks_eq l

/-! ### Claim C3 -/

/-- C3 counterexample: a single-event log whose event is eligible —
present climber, ratable label, Lead mode — yet produces no comparison at
all: the population filter drops it because its climber has no Fell/Hung
event.  This refutes "exactly one entry per eligible event". -/
theorem C3_counterexample :
    eligible exOnsight = true ∧ (scoreOfTick exOnsight).isSome = true ∧
    exOnsight.style = "Lead" ∧ exOnsight.user.isSome = true ∧
    allComps timeEx [exOnsight] = [] := by
  decide

/-- C3 (amended): the comparisons fed to the engine are exactly one entry
per event that survives the eligibility *and* population filters and has
a ratable score, in non-decreasing timestamp order; and every surviving
event is eligible, scored, carries a climber, and has mode `"Lead"` —
so there is in particular no entry for a missing-climber, unratable, or
non-Lead event. -/
theorem C3_comparisons (time : String → Int) (l : List Tick) :
    allComps time l = ((sortedTicks time l).filter scoredB).map toComp ∧
    List.Sorted (tickLe time) ((sortedTicks time l).filter scoredB) ∧
    ∀ t ∈ (sortedTicks time l).filter scoredB,
      eligible t = true ∧ scoredB t = true ∧ t.user.isSome = true ∧ t.style = "Lead" := by
  refine ⟨allComps_eq time l, ?_, ?_⟩
  · exact List.Pairwise.sublist (List.filter_sublist _) (List.sorted_insertionSort _ _)
  · intro t ht
    have h1 : t ∈ sortedTicks time l := List.mem_of_mem_filter ht
    have he := (mem_sortedTicks h1).2
    have he' := he
    unfold eligible at he'
    simp at he'
    exact ⟨he, (List.mem_filter.mp ht).2, he'.1.1, he'.2⟩

/-- C3 witness: a concrete surviving event. -/
theorem C3_comparisons_witness :
    (exFellHung ∈ (sortedTicks timeEx [exFellHung, exOnsight]).filter scoredB) ∧
    (eligible exFellHung = true ∧ scoredB exFellHung = true ∧
      exFellHung.user.isSome = true ∧ exFellHung.style = "Lead") :=
  ⟨by decide, (C3_comparisons timeEx [exFellHung, exOnsight]).2.2 exFellHung (by decide)⟩

/-! ### Claim C1 -/

/-- C1 counterexample: the "calendar date" used for batching is the
substring before the first comma, so `"Nov 7, 2021"` and `"Nov 7, 2022"`
share the date token `"Nov 7"`; with a December 2021 event between them
in timestamp order, the two `"Nov 7"` events land in different batches —
refuting "any two eligible scored events with the same calendar date land
in the same batch". -/
theorem C1_counterexample :
    dateToken exFellHung = dateToken exOnsight2022 ∧
    ¬ (∀ b₁ ∈ tickBatches timeEx [exFellHung, exDecOnsight, exOnsight2022],
        ∀ b₂ ∈ tickBatches timeEx [exFellHung, exDecOnsight, exOnsight2022],
        ∀ t₁ ∈ b₁, ∀ t₂ ∈ b₂, dateToken t₁ = dateToken t₂ → b₁ = b₂) := by
  constructor
  · decide
  · decide

/-- C1 (amended): provided no event has an empty date token (JS
truthiness quirk of the flush guard), the batches are exactly the maximal
runs of equal date tokens in the stably time-sorted surviving sequence:
events adjacent in a run share a batch, each batch is non-empty and
token-constant (so two events with *different* tokens never share a
batch), and the batches concatenate, in emission order, to the
time-sorted surviving sequence (so emission order is non-decreasing
timestamp order, which is ascending date order only when equal tokens are
contiguous under the timestamp sort). -/
theorem C1_batching (time : String → Int) (l : List Tick)
    (hne : ∀ t ∈ l, dateToken t ≠ "") :
    tickBatches time l = runsBy dateToken ((sortedTicks time l).filter scoredB) ∧
    List.Sorted (tickLe time) (sortedTicks time l) ∧
    (∀ b ∈ tickBatches time l, b ≠ [] ∧ ∀ t₁ ∈ b, ∀ t₂ ∈ b, dateToken t₁ = dateToken t₂) ∧
    (tickBatches time l).flatten = (sortedTicks time l).filter scoredB := by
  have hr := tickBatches_runs time l hne
  refine ⟨hr, List.sorted_insertionSort _ _, ?_, tickBatches_flatten time l⟩
  rw [hr]
  exact runsBy_chunks dateToken _

/-- C1 witness: the three-event example log has non-empty date tokens and
its batches are the runs of equal date tokens of its sorted sequence. -/
theorem C1_batching_witness :
    (∀ t ∈ [exFellHung, exDecOnsight, exOnsight2022], dateToken t ≠ "") ∧
    tickBatches timeEx [exFellHung, exDecOnsight, exOnsight2022] =
      runsBy dateToken
        ((sortedTicks timeEx [exFellHung, exDecOnsight, exOnsight2022]).filter scoredB) :=
  ⟨by decide, (C1_batching timeEx [exFellHung, exDecOnsight, exOnsight2022] (by decide)).1⟩

/-! ### Claim C6 -/

/-- C6: an unratable event contributes no comparison and never triggers a
batch flush by itself — the batches (as ticks, and as the comparison
triples fed to the engine) are identical to those of the log with the
unratable event removed. -/
theorem C6_unratable (time : String → Int) (l₁ l₂ : List Tick) (e : Tick)
    (he : scoreOfTick e = none) :
    tickBatches time (l₁ ++ e :: l₂) = tickBatches time (l₁ ++ l₂) ∧
    compBatches time (l₁ ++ e :: l₂) = compBatches time (l₁ ++ l₂) := by
  have h := tickBatches_middle time l₁ l₂ e he
  exact ⟨h, by rw [compBatches, compBatches, h]⟩

/-- C6 witness: removing a Pinkpoint event leaves the batches unchanged. -/
theorem C6_unratable_witness :
    scoreOfTick exPinkpoint = none ∧
    tickBatches timeEx ([exFellHung] ++ exPinkpoint :: [exOnsight]) =
      tickBatches timeEx ([exFellHung] ++ [exOnsight]) :=
  ⟨by decide, (C6_unratable timeEx [exFellHung] [exOnsight] exPinkpoint (by decide)).1⟩

/-! ### Claim C7 -/

/-- C7: an identity (climber or route) that appears in no comparison is
never created in the corresponding map and never appears in the
corresponding output collection — for every rating engine. -/
theorem C7_no_phantom_entities (time : String → Int) (l : List Tick) (i : Nat) :
    ((∀ c ∈ allComps time l, c.1 ≠ i) →
      i ∉ (pipelineState time l).players ∧
      ∀ engine : Engine, ∀ rec ∈ climberResults engine time l, rec.id ≠ i) ∧
    ((∀ c ∈ allComps time l, c.2.1 ≠ i) →
      i ∉ (pipelineState time l).routes ∧
      ∀ engine : Engine, ∀ routes : List Route,
        ∀ rec ∈ routeResults engine time l routes, rec.id ≠ i) := by
  constructor
  · intro h
    have hnp : i ∉ (pipelineState time l).players := by
      intro hp
      obtain ⟨c, hc, hc1⟩ := players_sub_comps hp
      exact h c hc hc1
    refine ⟨hnp, ?_⟩
    intro engine rec hrec
    obtain ⟨j, hj, rfl⟩ := mem_climberResults.mp hrec
    intro hid
    exact hnp (show i ∈ _ from hid ▸ hj)
  · intro h
    have hnp : i ∉ (pipelineState time l).routes := by
      intro hp
      obtain ⟨c, hc, hc1⟩ := routes_sub_comps hp
      exact h c hc hc1
    refine ⟨hnp, ?_⟩
    intro engine routes rec hrec
    obtain ⟨j, hj, rfl⟩ := mem_routeResults.mp hrec
    intro hid
    exact hnp (show i ∈ _ from hid ▸ hj)

/-- C7 witness: a lone Pinkpoint event creates neither its climber (id 7)
nor any comparison, and climber 7 appears in no output record. -/
theorem C7_no_phantom_entities_witness :
    (∀ c ∈ allComps timeEx [exPinkpoint], c.1 ≠ 7) ∧
    (7 ∉ (pipelineState timeEx [exPinkpoint]).players ∧
      ∀ engine : Engine, ∀ rec ∈ climberResults engine timeEx [exPinkpoint], rec.id ≠ 7) :=
  ⟨by decide, (C7_no_phantom_entities timeEx [exPinkpoint] 7).1 (by decide)⟩

/-! ### Claim C8 -/

/-- C8: the computation from decoded records to the two output
collections is a deterministic function of its input — equal tick logs
and route lists yield equal outputs (for any fixed engine and date
parser, both of which are deterministic functions in this model, as the
library and `Date` are in the real system). -/
theorem C8_determinism (engine : Engine) (time : String → Int)
    (l l' : List Tick) (routes routes' : List Route)
    (hl : l = l') (hr : routes = routes') :
    climberResults engine time l = climberResults engine time l' ∧
    routeResults engine time l routes = routeResults engine time l' routes' := by
  subst hl
  subst hr
  exact ⟨rfl, rfl⟩

/-- C8 witness: a concrete double run. -/
theorem C8_determinism_witness :
    climberResults exEngine timeEx [exFellHung] = climberResults exEngine timeEx [exFellHung] ∧
    routeResults exEngine timeEx [exFellHung] [] =
      routeResults exEngine timeEx [exFellHung] [] :=
  C8_determinism exEngine timeEx [exFellHung] [exFellHung] [] [] rfl rfl

/-! ### Claim C9 -/

/-- C9: in both output collections every record's `rating` and `rd` are
the engine's values rounded to the nearest integer (`Math.round`, halves
up — Mathlib's `round`), `vol` is the engine's value at native precision,
and each collection is sorted by descending (rounded) rating. -/
theorem C9_output_format (engine : Engine) (time : String → Int) (l : List Tick)
    (routes : List Route) :
    (∀ rec ∈ climberResults engine time l,
      rec.rating = round ((engine (compBatches time l)).1 rec.id).rating ∧
      rec.rd = round ((engine (compBatches time l)).1 rec.id).rd ∧
      rec.vol = ((engine (compBatches time l)).1 rec.id).vol) ∧
    List.Sorted climberDescRel (climberResults engine time l) ∧
    (∀ rec ∈ routeResults engine time l routes,
      rec.rating = round ((engine (compBatches time l)).2 rec.id).rating ∧
      rec.rd = round ((engine (compBatches time l)).2 rec.id).rd ∧
      rec.vol = ((engine (compBatches time l)).2 rec.id).vol) ∧
    List.Sorted routeDescRel (routeResults engine time l routes) := by
  refine ⟨?_, List.sorted_insertionSort _ _, ?_, List.sorted_insertionSort _ _⟩
  · intro rec hrec
    obtain ⟨i, _, rfl⟩ := mem_climberResults.mp hrec
    exact ⟨rfl, rfl, rfl⟩
  · intro rec hrec
    obtain ⟨i, _, rfl⟩ := mem_routeResults.mp hrec
    exact ⟨rfl, rfl, rfl⟩

/-- C9 witness: the climber record of the one-event example log carries
the rounded engine rating. -/
theorem C9_output_format_witness :
    (mkClimberRec exEngine timeEx [exFellHung] 5 ∈
      climberResults exEngine timeEx [exFellHung]) ∧
    (mkClimberRec exEngine timeEx [exFellHung] 5).rating =
      round ((exEngine (compBatches timeEx [exFellHung])).1
        (mkClimberRec exEngine timeEx [exFellHung] 5).id).rating := by
  have hmem : mkClimberRec exEngine timeEx [exFellHung] 5 ∈
      climberResults exEngine timeEx [exFellHung] :=
    mem_climberResults.mpr ⟨5, by decide, rfl⟩
  exact ⟨hmem, ((C9_output_format exEngine timeEx [exFellHung] []).1 _ hmem).1⟩

/-! ### Claim C10 -/

/-- C10: `names` is last-write-wins over the events passing the
eligibility filter, and every climber output record's `userName` is the
display name of the last eligible event (in original log order) for that
id — which exists for every record actually in the output. -/
theorem C10_names_last_write (l : List Tick) :
    (∀ i : Nat, (pass1 l).names i =
      (((l.filter eligible).filter (fun t => tickUid t == i)).getLast?).bind tickName) ∧
    ∀ engine : Engine, ∀ time : String → Int, ∀ rec ∈ climberResults engine time l,
      rec.userName =
        (((l.filter eligible).filter (fun t => tickUid t == rec.id)).getLast?).bind tickName ∧
      rec.userName.isSome = true := by
  refine ⟨pass1_names l, ?_⟩
  intro engine time rec hrec
  obtain ⟨i, hi, rfl⟩ := mem_climberResults.mp hrec
  constructor
  · exact pass1_names l i
  · exact names_isSome_of_mem_players hi

/-- C10 witness: in a log where climber 5 appears as "Ann", the output
record's `userName` is the name on the last eligible event. -/
theorem C10_names_last_write_witness :
    ((pass1 [exFellHung]).names 5 =
      ((([exFellHung].filter eligible).filter (fun t => tickUid t == 5)).getLast?).bind
        tickName) ∧
    (mkClimberRec exEngine timeEx [exFellHung] 5).userName.isSome = true := by
  have hmem : mkClimberRec exEngine timeEx [exFellHung] 5 ∈
      climberResults exEngine timeEx [exFellHung] :=
    mem_climberResults.mpr ⟨5, by decide, rfl⟩
  exact ⟨(C10_names_last_write [exFellHung]).1 5,
    ((C10_names_last_write [exFellHung]).2 exEngine timeEx _ hmem).2⟩

end MpElo
